import Mathlib

/-
Verification of the metrics module (src/metrics.py) of the doodle repository.

The module computes, from a batch of true labels and predicted classes,
a confusion matrix and per-class counts tp / fp / tn / fn, and from those
the micro- and macro-averaged accuracy, precision, recall and F-measure.
The embedding below follows `add_summary`, `micro_metrics` and
`macro_metrics` line by line, with exact rational arithmetic in place of
float32 tensors.  Division is the total field division of ℚ (x / 0 = 0);
wherever a claim depends on a denominator being nonzero we state that
denominator explicitly.
-/

namespace Metrics

/-- Epsilon guard of the source: eps = tf.convert_to_tensor(1e-7). -/
def eps : ℚ := 1 / 10000000

/-- Embedding of tf.confusion_matrix(labels, classes, num_classes):
entry (i, j) counts the examples whose true label is i and whose
predicted class is j.  Rows are indexed by the true class, columns by the
predicted class. -/
def confusion_matrix (labels classes : List ℕ) (i j : ℕ) : ℚ :=
  (((labels.zip classes).countP (fun q => q.1 == i && q.2 == j) : ℕ) : ℚ)

/-- Embedding of ln = tf.reduce_sum(cm): the sum of all matrix entries. -/
def ln (labels classes : List ℕ) (num_classes : ℕ) : ℚ :=
  ∑ i ∈ Finset.range num_classes, ∑ j ∈ Finset.range num_classes,
    confusion_matrix labels classes i j

/-- Embedding of tp = tf.diag_part(cm). -/
def tp (labels classes : List ℕ) (i : ℕ) : ℚ :=
  confusion_matrix labels classes i i

/-- Row sum of the confusion matrix: tf.reduce_sum(cm, axis=1) at index i. -/
def row_sum (labels classes : List ℕ) (num_classes i : ℕ) : ℚ :=
  ∑ j ∈ Finset.range num_classes, confusion_matrix labels classes i j

/-- Column sum of the confusion matrix: tf.reduce_sum(cm, axis=0) at index i. -/
def col_sum (labels classes : List ℕ) (num_classes i : ℕ) : ℚ :=
  ∑ j ∈ Finset.range num_classes, confusion_matrix labels classes j i

/-- Embedding of fp = tf.reduce_sum(cm, axis=1) - tp (as written in the source). -/
def fp (labels classes : List ℕ) (num_classes i : ℕ) : ℚ :=
  row_sum labels classes num_classes i - tp labels classes i

/-- Embedding of fn = tf.reduce_sum(cm, axis=0) - tp (as written in the source). -/
def fn (labels classes : List ℕ) (num_classes i : ℕ) : ℚ :=
  col_sum labels classes num_classes i - tp labels classes i

/-- Embedding of tn = ln - tp - fp - fn. -/
def tn (labels classes : List ℕ) (num_classes i : ℕ) : ℚ :=
  ln labels classes num_classes - tp labels classes i
    - fp labels classes num_classes i - fn labels classes num_classes i

/-- Embedding of tp_sum = tf.reduce_sum(tp) in micro_metrics. -/
def tp_sum (labels classes : List ℕ) (num_classes : ℕ) : ℚ :=
  ∑ i ∈ Finset.range num_classes, tp labels classes i

/-- Embedding of fp_sum = tf.reduce_sum(fp) in micro_metrics. -/
def fp_sum (labels classes : List ℕ) (num_classes : ℕ) : ℚ :=
  ∑ i ∈ Finset.range num_classes, fp labels classes num_classes i

/-- Embedding of tn_sum = tf.reduce_sum(tn) in micro_metrics. -/
def tn_sum (labels classes : List ℕ) (num_classes : ℕ) : ℚ :=
  ∑ i ∈ Finset.range num_classes, tn labels classes num_classes i

/-- Embedding of fn_sum = tf.reduce_sum(fn) in micro_metrics. -/
def fn_sum (labels classes : List ℕ) (num_classes : ℕ) : ℚ :=
  ∑ i ∈ Finset.range num_classes, fn labels classes num_classes i

/-- Micro accuracy = (tp_sum + tn_sum) / (tp_sum + fp_sum + tn_sum + fn_sum). -/
def micro_accuracy (labels classes : List ℕ) (num_classes : ℕ) : ℚ :=
  (tp_sum labels classes num_classes + tn_sum labels classes num_classes) /
    (tp_sum labels classes num_classes + fp_sum labels classes num_classes
      + tn_sum labels classes num_classes + fn_sum labels classes num_classes)

/-- Micro precision = tp_sum / (tp_sum + fp_sum + eps). -/
def micro_precision (labels classes : List ℕ) (num_classes : ℕ) : ℚ :=
  tp_sum labels classes num_classes /
    (tp_sum labels classes num_classes + fp_sum labels classes num_classes + eps)

/-- Micro recall = tp_sum / (tp_sum + fn_sum + eps). -/
def micro_recall (labels classes : List ℕ) (num_classes : ℕ) : ℚ :=
  tp_sum labels classes num_classes /
    (tp_sum labels classes num_classes + fn_sum labels classes num_classes + eps)

/-- Micro F-measure = 2 * precision * recall / (precision + recall + eps). -/
def micro_f_measure (labels classes : List ℕ) (num_classes : ℕ) : ℚ :=
  2 * micro_precision labels classes num_classes * micro_recall labels classes num_classes /
    (micro_precision labels classes num_classes + micro_recall labels classes num_classes + eps)

/-- Per-class accuracies = (tp + tn) / (tp + fp + tn + fn) in macro_metrics. -/
def accuracies (labels classes : List ℕ) (num_classes i : ℕ) : ℚ :=
  (tp labels classes i + tn labels classes num_classes i) /
    (tp labels classes i + fp labels classes num_classes i
      + tn labels classes num_classes i + fn labels classes num_classes i)

/-- Per-class precisions = tp / (tp + fp + eps) in macro_metrics. -/
def precisions (labels classes : List ℕ) (num_classes i : ℕ) : ℚ :=
  tp labels classes i / (tp labels classes i + fp labels classes num_classes i + eps)

/-- Per-class recalls = tp / (tp + fn + eps) in macro_metrics. -/
def recalls (labels classes : List ℕ) (num_classes i : ℕ) : ℚ :=
  tp labels classes i / (tp labels classes i + fn labels classes num_classes i + eps)

/-- Per-class f_measures = 2 * precisions * recalls / (precisions + recalls + eps). -/
def f_measures (labels classes : List ℕ) (num_classes i : ℕ) : ℚ :=
  2 * precisions labels classes num_classes i * recalls labels classes num_classes i /
    (precisions labels classes num_classes i + recalls labels classes num_classes i + eps)

/-- Macro accuracy = tf.reduce_mean(accuracies). -/
def macro_accuracy (labels classes : List ℕ) (num_classes : ℕ) : ℚ :=
  (∑ i ∈ Finset.range num_classes, accuracies labels classes num_classes i) /
    (num_classes : ℚ)

/-- Macro precision = tf.reduce_mean(precisions). -/
def macro_precision (labels classes : List ℕ) (num_classes : ℕ) : ℚ :=
  (∑ i ∈ Finset.range num_classes, precisions labels classes num_classes i) /
    (num_classes : ℚ)

/-- Macro recall = tf.reduce_mean(recalls). -/
def macro_recall (labels classes : List ℕ) (num_classes : ℕ) : ℚ :=
  (∑ i ∈ Finset.range num_classes, recalls labels classes num_classes i) /
    (num_classes : ℚ)

/-- Macro F-measure = tf.reduce_mean(f_measures). -/
def macro_f_measure (labels classes : List ℕ) (num_classes : ℕ) : ℚ :=
  (∑ i ∈ Finset.range num_classes, f_measures labels classes num_classes i) /
    (num_classes : ℚ)

/-- Denominator of the micro accuracy division (unguarded in the source). -/
def micro_accuracy_den (labels classes : List ℕ) (num_classes : ℕ) : ℚ :=
  tp_sum labels classes num_classes + fp_sum labels classes num_classes
    + tn_sum labels classes num_classes + fn_sum labels classes num_classes

/-- Denominator of the micro precision division (eps-guarded in the source). -/
def micro_precision_den (labels classes : List ℕ) (num_classes : ℕ) : ℚ :=
  tp_sum labels classes num_classes + fp_sum labels classes num_classes + eps

/-- Denominator of the micro recall division (eps-guarded in the source). -/
def micro_recall_den (labels classes : List ℕ) (num_classes : ℕ) : ℚ :=
  tp_sum labels classes num_classes + fn_sum labels classes num_classes + eps

/-- Denominator of the micro F-measure division (eps-guarded in the source). -/
def micro_f_measure_den (labels classes : List ℕ) (num_classes : ℕ) : ℚ :=
  micro_precision labels classes num_classes + micro_recall labels classes num_classes + eps

/-- Denominator of the per-class accuracy division (unguarded in the source). -/
def accuracies_den (labels classes : List ℕ) (num_classes i : ℕ) : ℚ :=
  tp labels classes i + fp labels classes num_classes i
    + tn labels classes num_classes i + fn labels classes num_classes i

/-- Denominator of the per-class precision division (eps-guarded in the source). -/
def precisions_den (labels classes : List ℕ) (num_classes i : ℕ) : ℚ :=
  tp labels classes i + fp labels classes num_classes i + eps

/-- Denominator of the per-class recall division (eps-guarded in the source). -/
def recalls_den (labels classes : List ℕ) (num_classes i : ℕ) : ℚ :=
  tp labels classes i + fn labels classes num_classes i + eps

/-- Denominator of the per-class F-measure division (eps-guarded in the source). -/
def f_measures_den (labels classes : List ℕ) (num_classes i : ℕ) : ℚ :=
  precisions labels classes num_classes i + recalls labels classes num_classes i + eps

/-- A well-formed input batch: the two label sequences have equal length and
every label and every prediction is an in-range class index. -/
abbrev Valid (labels classes : List ℕ) (num_classes : ℕ) : Prop :=
  labels.length = classes.length ∧ (∀ l ∈ labels, l < num_classes) ∧
    (∀ p ∈ classes, p < num_classes)

end Metrics

namespace Metrics

example : confusion_matrix [0, 0, 1, 1] [0, 1, 1, 1] 0 0 = 1 := by decide
example : confusion_matrix [0, 0, 1, 1] [0, 1, 1, 1] 0 1 = 1 := by decide
example : confusion_matrix [0, 0, 1, 1] [0, 1, 1, 1] 1 0 = 0 := by decide
example : confusion_matrix [0, 0, 1, 1] [0, 1, 1, 1] 1 1 = 2 := by decide
example : micro_accuracy [0, 0, 1, 1] [0, 1, 1, 1] 2 = 3 / 4 := by
  norm_num [micro_accuracy, tp_sum, tn_sum, fp_sum, fn_sum, tp, tn, fp, fn,
    row_sum, col_sum, ln, confusion_matrix, Finset.sum_range_succ, eps]
example : fp [0, 0, 1, 1] [0, 1, 1, 1] 2 0 = 1 := by
  norm_num [tp, fp, row_sum, confusion_matrix, Finset.sum_range_succ]
example : macro_precision [0, 0, 1, 1] [0, 1, 1, 1] 2 < 4 / 5 := by
  norm_num [macro_precision, precisions, tp, fp, row_sum, confusion_matrix,
    Finset.sum_range_succ, eps]
example : macro_recall [0, 0, 1, 1] [0, 1, 1, 1] 2 > 4 / 5 := by
  norm_num [macro_recall, recalls, tp, fn, col_sum, confusion_matrix,
    Finset.sum_range_succ, eps]
example : micro_accuracy [0, 0, 1, 1] [0, 1, 1, 1] 3 = 5 / 6 := by
  norm_num [micro_accuracy, tp_sum, tn_sum, fp_sum, fn_sum, tp, tn, fp, fn,
    row_sum, col_sum, ln, confusion_matrix, Finset.sum_range_succ, eps]
example : Valid [0, 0, 1, 1] [0, 1, 1, 1] 2 := by decide

/-- Each per-class accuracy denominator collapses to the matrix total. -/
lemma accuracies_den_eq (labels classes : List ℕ) (num_classes i : ℕ) :
    accuracies_den labels classes num_classes i = ln labels classes num_classes := by
  unfold accuracies_den tn
  ring

/-- The row sums of the confusion matrix add up to the matrix total. -/
lemma row_sum_total (labels classes : List ℕ) (num_classes : ℕ) :
    ∑ i ∈ Finset.range num_classes, row_sum labels classes num_classes i
      = ln labels classes num_classes := rfl

/-- The column sums of the confusion matrix add up to the matrix total. -/
lemma col_sum_total (labels classes : List ℕ) (num_classes : ℕ) :
    ∑ i ∈ Finset.range num_classes, col_sum labels classes num_classes i
      = ln labels classes num_classes := by
  unfold col_sum ln
  exact Finset.sum_comm

/-- Summed code-level fp equals the matrix total minus the summed tp. -/
lemma fp_sum_eq (labels classes : List ℕ) (num_classes : ℕ) :
    fp_sum labels classes num_classes
      = ln labels classes num_classes - tp_sum labels classes num_classes := by
  unfold fp_sum fp tp_sum
  rw [Finset.sum_sub_distrib, row_sum_total]

/-- Summed code-level fn equals the matrix total minus the summed tp. -/
lemma fn_sum_eq (labels classes : List ℕ) (num_classes : ℕ) :
    fn_sum labels classes num_classes
      = ln labels classes num_classes - tp_sum labels classes num_classes := by
  unfold fn_sum fn tp_sum
  rw [Finset.sum_sub_distrib, col_sum_total]

/-- Summed code-level tn in terms of the other three summed counts. -/
lemma tn_sum_eq (labels classes : List ℕ) (num_classes : ℕ) :
    tn_sum labels classes num_classes
      = (num_classes : ℚ) * ln labels classes num_classes
        - tp_sum labels classes num_classes - fp_sum labels classes num_classes
        - fn_sum labels classes num_classes := by
  unfold tn_sum tn
  rw [Finset.sum_sub_distrib, Finset.sum_sub_distrib, Finset.sum_sub_distrib,
    Finset.sum_const, Finset.card_range, nsmul_eq_mul]
  rfl

/-- The micro accuracy denominator equals num_classes times the matrix total. -/
lemma micro_accuracy_den_eq (labels classes : List ℕ) (num_classes : ℕ) :
    micro_accuracy_den labels classes num_classes
      = (num_classes : ℚ) * ln labels classes num_classes := by
  unfold micro_accuracy_den
  rw [tn_sum_eq]
  ring

/-- Macro-averaged accuracy always coincides with micro-averaged accuracy:
every per-class accuracy has the same denominator (the matrix total), so the
unweighted mean of the per-class ratios is the micro ratio. -/
lemma macro_accuracy_eq_micro (labels classes : List ℕ) (num_classes : ℕ) :
    macro_accuracy labels classes num_classes = micro_accuracy labels classes num_classes := by
  have hnum : micro_accuracy labels classes num_classes
      = (tp_sum labels classes num_classes + tn_sum labels classes num_classes) /
        ((num_classes : ℚ) * ln labels classes num_classes) := by
    unfold micro_accuracy
    rw [show tp_sum labels classes num_classes + fp_sum labels classes num_classes
        + tn_sum labels classes num_classes + fn_sum labels classes num_classes
        = micro_accuracy_den labels classes num_classes from rfl,
      micro_accuracy_den_eq]
  rw [hnum]
  unfold macro_accuracy accuracies
  have hden : ∀ i, tp labels classes i + fp labels classes num_classes i
      + tn labels classes num_classes i + fn labels classes num_classes i
      = ln labels classes num_classes := by
    intro i
    have := accuracies_den_eq labels classes num_classes i
    unfold accuracies_den at this
    exact this
  calc (∑ i ∈ Finset.range num_classes,
          (tp labels classes i + tn labels classes num_classes i) /
            (tp labels classes i + fp labels classes num_classes i
              + tn labels classes num_classes i + fn labels classes num_classes i)) /
        (num_classes : ℚ)
      = (∑ i ∈ Finset.range num_classes,
          (tp labels classes i + tn labels classes num_classes i) /
            ln labels classes num_classes) / (num_classes : ℚ) := by
        congr 1
        refine Finset.sum_congr rfl (fun i _ => ?_)
        rw [hden i]
    _ = ((∑ i ∈ Finset.range num_classes,
          (tp labels classes i + tn labels classes num_classes i)) /
            ln labels classes num_classes) / (num_classes : ℚ) := by
        rw [← Finset.sum_div]
    _ = (tp_sum labels classes num_classes + tn_sum labels classes num_classes) /
          ((num_classes : ℚ) * ln labels classes num_classes) := by
        rw [Finset.sum_add_distrib]
        rw [show (∑ i ∈ Finset.range num_classes, tp labels classes i)
          = tp_sum labels classes num_classes from rfl]
        rw [show (∑ i ∈ Finset.range num_classes, tn labels classes num_classes i)
          = tn_sum labels classes num_classes from rfl]
        rw [div_div, mul_comm]

/-- Double indicator sum: an in-range pair is counted by exactly one cell. -/
lemma sum_indicator_pair (n a b : ℕ) (ha : a < n) (hb : b < n) :
    (∑ i ∈ Finset.range n, ∑ j ∈ Finset.range n,
      (if a = i ∧ b = j then (1 : ℕ) else 0)) = 1 := by
  have hinner : ∀ i, (∑ j ∈ Finset.range n, (if a = i ∧ b = j then (1 : ℕ) else 0))
      = if a = i then 1 else 0 := by
    intro i
    by_cases hi : a = i
    · simp [hi, Finset.sum_ite_eq, Finset.mem_range.2 hb]
    · simp [hi]
  rw [Finset.sum_congr rfl (fun i _ => hinner i), Finset.sum_ite_eq]
  simp [Finset.mem_range.2 ha]

/-- Summing the per-cell counts of a pair list over all in-range cells counts
every pair exactly once. -/
lemma countP_cell_sum (num_classes : ℕ) (L : List (ℕ × ℕ))
    (h : ∀ q ∈ L, q.1 < num_classes ∧ q.2 < num_classes) :
    (∑ i ∈ Finset.range num_classes, ∑ j ∈ Finset.range num_classes,
      L.countP (fun q => q.1 == i && q.2 == j)) = L.length := by
  induction L with
  | nil => simp
  | cons a t ih =>
    have ha := h a (List.mem_cons_self a t)
    have ht : ∀ q ∈ t, q.1 < num_classes ∧ q.2 < num_classes :=
      fun q hq => h q (List.mem_cons_of_mem a hq)
    simp only [List.countP_cons, List.length_cons, Finset.sum_add_distrib]
    rw [ih ht]
    simp only [Bool.and_eq_true, beq_iff_eq]
    rw [sum_indicator_pair num_classes a.1 a.2 ha.1 ha.2]

/-- For a well-formed input the matrix total is the number of examples. -/
lemma ln_eq_length (labels classes : List ℕ) (num_classes : ℕ)
    (h : Valid labels classes num_classes) :
    ln labels classes num_classes = (labels.length : ℚ) := by
  obtain ⟨hlen, hl, hc⟩ := h
  have hmem : ∀ q ∈ labels.zip classes, q.1 < num_classes ∧ q.2 < num_classes := by
    rintro ⟨x, y⟩ hq
    obtain ⟨hx, hy⟩ := List.of_mem_zip hq
    exact ⟨hl x hx, hc y hy⟩
  unfold ln confusion_matrix
  norm_cast
  rw [countP_cell_sum num_classes _ hmem, List.length_zip, hlen, min_self]

/-- A column of the confusion matrix for a class never predicted is zero. -/
lemma confusion_matrix_eq_zero_right (labels classes : List ℕ) (i j : ℕ)
    (hj : j ∉ classes) : confusion_matrix labels classes i j = 0 := by
  unfold confusion_matrix
  norm_cast
  rw [List.countP_eq_zero]
  rintro ⟨x, y⟩ hq
  simp only [Bool.and_eq_true, beq_iff_eq, not_and]
  rintro _ rfl
  exact hj (List.of_mem_zip hq).2

/-- A row of the confusion matrix for a class never labelled is zero. -/
lemma confusion_matrix_eq_zero_left (labels classes : List ℕ) (i j : ℕ)
    (hi : i ∉ labels) : confusion_matrix labels classes i j = 0 := by
  unfold confusion_matrix
  norm_cast
  rw [List.countP_eq_zero]
  rintro ⟨x, y⟩ hq
  simp only [Bool.and_eq_true, beq_iff_eq, not_and]
  rintro rfl
  exact fun _ => hi (List.of_mem_zip hq).1

/-- Matrix entries are counts, hence nonnegative. -/
lemma confusion_matrix_nonneg (labels classes : List ℕ) (i j : ℕ) :
    0 ≤ confusion_matrix labels classes i j := Nat.cast_nonneg _

lemma tp_nonneg (labels classes : List ℕ) (i : ℕ) : 0 ≤ tp labels classes i :=
  Nat.cast_nonneg _

lemma row_sum_nonneg (labels classes : List ℕ) (num_classes i : ℕ) :
    0 ≤ row_sum labels classes num_classes i :=
  Finset.sum_nonneg fun j _ => confusion_matrix_nonneg labels classes i j

lemma col_sum_nonneg (labels classes : List ℕ) (num_classes i : ℕ) :
    0 ≤ col_sum labels classes num_classes i :=
  Finset.sum_nonneg fun j _ => confusion_matrix_nonneg labels classes j i

lemma ln_nonneg (labels classes : List ℕ) (num_classes : ℕ) :
    0 ≤ ln labels classes num_classes :=
  Finset.sum_nonneg fun i _ => row_sum_nonneg labels classes num_classes i

/-- The diagonal entry is one of the terms of its row sum. -/
lemma tp_le_row_sum (labels classes : List ℕ) (num_classes i : ℕ) (h : i < num_classes) :
    tp labels classes i ≤ row_sum labels classes num_classes i :=
  Finset.single_le_sum (fun j _ => confusion_matrix_nonneg labels classes i j)
    (Finset.mem_range.2 h)

/-- The diagonal entry is one of the terms of its column sum. -/
lemma tp_le_col_sum (labels classes : List ℕ) (num_classes i : ℕ) (h : i < num_classes) :
    tp labels classes i ≤ col_sum labels classes num_classes i :=
  Finset.single_le_sum (fun j _ => confusion_matrix_nonneg labels classes j i)
    (Finset.mem_range.2 h)

lemma fp_nonneg (labels classes : List ℕ) (num_classes i : ℕ) (h : i < num_classes) :
    0 ≤ fp labels classes num_classes i :=
  sub_nonneg.2 (tp_le_row_sum labels classes num_classes i h)

lemma fn_nonneg (labels classes : List ℕ) (num_classes i : ℕ) (h : i < num_classes) :
    0 ≤ fn labels classes num_classes i :=
  sub_nonneg.2 (tp_le_col_sum labels classes num_classes i h)

/-- The derived true-negative count is nonnegative for in-range classes:
the cells outside row i and column i account for a nonnegative total. -/
lemma tn_nonneg (labels classes : List ℕ) (num_classes i : ℕ) (h : i < num_classes) :
    0 ≤ tn labels classes num_classes i := by
  have hmem : i ∈ Finset.range num_classes := Finset.mem_range.2 h
  have hsplit : row_sum labels classes num_classes i
      + ∑ a ∈ (Finset.range num_classes).erase i, row_sum labels classes num_classes a
      = ln labels classes num_classes := Finset.add_sum_erase _ _ hmem
  have hcol : confusion_matrix labels classes i i
      + ∑ a ∈ (Finset.range num_classes).erase i, confusion_matrix labels classes a i
      = col_sum labels classes num_classes i :=
    Finset.add_sum_erase _ (fun a => confusion_matrix labels classes a i) hmem
  have hle : (∑ a ∈ (Finset.range num_classes).erase i, confusion_matrix labels classes a i)
      ≤ ∑ a ∈ (Finset.range num_classes).erase i, row_sum labels classes num_classes a := by
    refine Finset.sum_le_sum (fun a ha => ?_)
    exact Finset.single_le_sum (fun j _ => confusion_matrix_nonneg labels classes a j) hmem
  unfold tn fp fn tp
  unfold tp at hcol
  linarith

/-- Per-class true examples plus true negatives never exceed the matrix total. -/
lemma tp_add_tn_le_ln (labels classes : List ℕ) (num_classes i : ℕ) (h : i < num_classes) :
    tp labels classes i + tn labels classes num_classes i ≤ ln labels classes num_classes := by
  have h1 := fp_nonneg labels classes num_classes i h
  have h2 := fn_nonneg labels classes num_classes i h
  unfold tn
  linarith

lemma tp_sum_nonneg (labels classes : List ℕ) (num_classes : ℕ) :
    0 ≤ tp_sum labels classes num_classes :=
  Finset.sum_nonneg fun i _ => tp_nonneg labels classes i

lemma fp_sum_nonneg (labels classes : List ℕ) (num_classes : ℕ) :
    0 ≤ fp_sum labels classes num_classes :=
  Finset.sum_nonneg fun i hi =>
    fp_nonneg labels classes num_classes i (Finset.mem_range.1 hi)

lemma fn_sum_nonneg (labels classes : List ℕ) (num_classes : ℕ) :
    0 ≤ fn_sum labels classes num_classes :=
  Finset.sum_nonneg fun i hi =>
    fn_nonneg labels classes num_classes i (Finset.mem_range.1 hi)

lemma tn_sum_nonneg (labels classes : List ℕ) (num_classes : ℕ) :
    0 ≤ tn_sum labels classes num_classes :=
  Finset.sum_nonneg fun i hi =>
    tn_nonneg labels classes num_classes i (Finset.mem_range.1 hi)

/-- Micro accuracy numerator never exceeds its denominator. -/
lemma tp_sum_add_tn_sum_le (labels classes : List ℕ) (num_classes : ℕ) :
    tp_sum labels classes num_classes + tn_sum labels classes num_classes
      ≤ (num_classes : ℚ) * ln labels classes num_classes := by
  unfold tp_sum tn_sum
  rw [← Finset.sum_add_distrib]
  calc (∑ i ∈ Finset.range num_classes,
          (tp labels classes i + tn labels classes num_classes i))
      ≤ ∑ _i ∈ Finset.range num_classes, ln labels classes num_classes :=
        Finset.sum_le_sum (fun i hi =>
          tp_add_tn_le_ln labels classes num_classes i (Finset.mem_range.1 hi))
    _ = (num_classes : ℚ) * ln labels classes num_classes := by
        rw [Finset.sum_const, Finset.card_range, nsmul_eq_mul]

/-- The numeric value of the epsilon guard is positive. -/
lemma eps_pos : (0 : ℚ) < eps := by norm_num [eps]

/-- An eps-guarded ratio with support at least one example is within eps of 1. -/
lemma div_add_eps_bounds (x : ℚ) (hx : 1 ≤ x) :
    1 - eps ≤ x / (x + eps) ∧ x / (x + eps) ≤ 1 := by
  have he : eps = 1 / 10000000 := rfl
  have hpos : 0 < x + eps := by rw [he]; linarith
  constructor
  · rw [le_div_iff hpos, he]
    nlinarith
  · rw [div_le_one hpos, he]
    linarith

/-- A nonneg ratio is at most 1 when its numerator is at most its denominator. -/
lemma ratio_mem_unit (a b : ℚ) (ha : 0 ≤ a) (hab : a ≤ b) (hb : 0 < b) :
    0 ≤ a / b ∧ a / b ≤ 1 :=
  ⟨div_nonneg ha hb.le, (div_le_one hb).2 hab⟩

/-- The F-measure combination of two values in the unit interval stays in it. -/
lemma f_formula_unit (p r : ℚ) (hp0 : 0 ≤ p) (hp1 : p ≤ 1) (hr0 : 0 ≤ r) (hr1 : r ≤ 1) :
    0 ≤ 2 * p * r / (p + r + eps) ∧ 2 * p * r / (p + r + eps) ≤ 1 := by
  have he : eps = 1 / 10000000 := rfl
  have hpos : 0 < p + r + eps := by rw [he]; linarith
  constructor
  · exact div_nonneg (by nlinarith) hpos.le
  · rw [div_le_one hpos]
    nlinarith [mul_nonneg hp0 (sub_nonneg.2 hr1), mul_nonneg hr0 (sub_nonneg.2 hp1)]

/-- The F-measure combination of two values within eps of 1 is within 3 eps of 1. -/
lemma f_formula_near_one (p r : ℚ) (hp : 1 - eps ≤ p) (hp1 : p ≤ 1)
    (hr : 1 - eps ≤ r) (hr1 : r ≤ 1) :
    1 - 3 * eps ≤ 2 * p * r / (p + r + eps) := by
  have he : eps = 1 / 10000000 := rfl
  rw [he] at hp hr ⊢
  have hpos : 0 < p + r + (1 / 10000000 : ℚ) := by linarith
  rw [le_div_iff₀ hpos]
  nlinarith [mul_nonneg (sub_nonneg.2 hp1) (sub_nonneg.2 hr1)]

/-- A mean of values lying in an interval lies in the interval. -/
lemma mean_bounds (f : ℕ → ℚ) (n : ℕ) (a b : ℚ) (hn : 1 ≤ n)
    (h : ∀ i ∈ Finset.range n, a ≤ f i ∧ f i ≤ b) :
    a ≤ (∑ i ∈ Finset.range n, f i) / (n : ℚ) ∧
      (∑ i ∈ Finset.range n, f i) / (n : ℚ) ≤ b := by
  have hn0 : (0 : ℚ) < (n : ℚ) := by exact_mod_cast hn
  constructor
  · rw [le_div_iff hn0]
    calc a * (n : ℚ) = ∑ _i ∈ Finset.range n, a := by
          rw [Finset.sum_const, Finset.card_range, nsmul_eq_mul]; ring
      _ ≤ ∑ i ∈ Finset.range n, f i := Finset.sum_le_sum (fun i hi => (h i hi).1)
  · rw [div_le_iff hn0]
    calc (∑ i ∈ Finset.range n, f i) ≤ ∑ _i ∈ Finset.range n, b :=
          Finset.sum_le_sum (fun i hi => (h i hi).2)
      _ = b * (n : ℚ) := by
          rw [Finset.sum_const, Finset.card_range, nsmul_eq_mul]; ring

/-- On a self-zipped list the (i, j) cell count is the count of i on the
diagonal and zero off it. -/
lemma countP_zip_self (l : List ℕ) (i j : ℕ) :
    (l.zip l).countP (fun q => q.1 == i && q.2 == j)
      = if i = j then l.count i else 0 := by
  induction l with
  | nil => simp
  | cons a t ih =>
    rw [List.zip_cons_cons, List.countP_cons, ih]
    by_cases hij : i = j
    · subst hij
      by_cases hai : a = i
      · subst hai
        simp [List.count_cons]
      · simp [List.count_cons, hai, Ne.symm hai]
    · by_cases hai : a = i
      · subst hai
        simp [hij]
      · simp [hij, hai]

/-- Perfect predictions: the confusion matrix is diagonal. -/
lemma confusion_matrix_self (l : List ℕ) (i j : ℕ) :
    confusion_matrix l l i j = if i = j then (l.count i : ℚ) else 0 := by
  unfold confusion_matrix
  rw [countP_zip_self]
  split <;> simp

lemma tp_self (l : List ℕ) (i : ℕ) : tp l l i = (l.count i : ℚ) := by
  unfold tp
  rw [confusion_matrix_self]
  simp

lemma row_sum_self (l : List ℕ) (n i : ℕ) (h : i < n) :
    row_sum l l n i = (l.count i : ℚ) := by
  unfold row_sum
  rw [Finset.sum_congr rfl (fun j _ => confusion_matrix_self l i j), Finset.sum_ite_eq]
  simp [Finset.mem_range.2 h]

lemma col_sum_self (l : List ℕ) (n i : ℕ) (h : i < n) :
    col_sum l l n i = (l.count i : ℚ) := by
  unfold col_sum
  rw [Finset.sum_congr rfl (fun j _ => confusion_matrix_self l j i), Finset.sum_ite_eq']
  simp [Finset.mem_range.2 h]

lemma fp_self (l : List ℕ) (n i : ℕ) (h : i < n) : fp l l n i = 0 := by
  unfold fp
  rw [row_sum_self l n i h, tp_self]
  ring

lemma fn_self (l : List ℕ) (n i : ℕ) (h : i < n) : fn l l n i = 0 := by
  unfold fn
  rw [col_sum_self l n i h, tp_self]
  ring

lemma tp_sum_self (l : List ℕ) (n : ℕ) (h : ∀ x ∈ l, x < n) :
    tp_sum l l n = (l.length : ℚ) := by
  unfold tp_sum
  rw [Finset.sum_congr rfl (fun i hi =>
    (tp_self l i).trans (row_sum_self l n i (Finset.mem_range.1 hi)).symm)]
  exact (row_sum_total l l n).trans (ln_eq_length l l n ⟨rfl, h, h⟩)

lemma fp_sum_self (l : List ℕ) (n : ℕ) : fp_sum l l n = 0 :=
  Finset.sum_eq_zero fun i hi => fp_self l n i (Finset.mem_range.1 hi)

lemma fn_sum_self (l : List ℕ) (n : ℕ) : fn_sum l l n = 0 :=
  Finset.sum_eq_zero fun i hi => fn_self l n i (Finset.mem_range.1 hi)

lemma tn_sum_self (l : List ℕ) (n : ℕ) (h : ∀ x ∈ l, x < n) :
    tn_sum l l n = (n : ℚ) * (l.length : ℚ) - (l.length : ℚ) := by
  rw [tn_sum_eq, tp_sum_self l n h, fp_sum_self, fn_sum_self,
    ln_eq_length l l n ⟨rfl, h, h⟩]
  ring

/-- Perfect predictions on a nonempty batch: every per-class accuracy is 1. -/
lemma accuracies_self (l : List ℕ) (n i : ℕ) (h : ∀ x ∈ l, x < n) (hi : i < n)
    (hne : l ≠ []) : accuracies l l n i = 1 := by
  have hd := accuracies_den_eq l l n i
  unfold accuracies_den at hd
  have hnum : tp l l i + tn l l n i = ln l l n := by
    unfold tn
    rw [fp_self l n i hi, fn_self l n i hi]
    ring
  unfold accuracies
  rw [hd, hnum, ln_eq_length l l n ⟨rfl, h, h⟩]
  have hpos : (0 : ℚ) < (l.length : ℚ) := by
    exact_mod_cast List.length_pos.2 hne
  exact div_self (ne_of_gt hpos)

/-- Perfect predictions on a nonempty batch: macro accuracy is exactly 1. -/
lemma macro_accuracy_self (l : List ℕ) (n : ℕ) (h : ∀ x ∈ l, x < n) (hn : 1 ≤ n)
    (hne : l ≠ []) : macro_accuracy l l n = 1 := by
  unfold macro_accuracy
  rw [Finset.sum_congr rfl (fun i hi =>
    accuracies_self l n i h (Finset.mem_range.1 hi) hne)]
  rw [Finset.sum_const, Finset.card_range, nsmul_eq_mul, mul_one]
  exact div_self (by exact_mod_cast Nat.one_le_iff_ne_zero.1 hn)

/-- Perfect predictions on a nonempty batch: micro accuracy is exactly 1. -/
lemma micro_accuracy_self (l : List ℕ) (n : ℕ) (h : ∀ x ∈ l, x < n) (hn : 1 ≤ n)
    (hne : l ≠ []) : micro_accuracy l l n = 1 := by
  have key : micro_accuracy l l n
      = ((n : ℚ) * (l.length : ℚ)) / ((n : ℚ) * (l.length : ℚ)) := by
    unfold micro_accuracy
    rw [tp_sum_self l n h, fp_sum_self l n, fn_sum_self l n, tn_sum_self l n h]
    ring_nf
  have hpos : (0 : ℚ) < (n : ℚ) * (l.length : ℚ) := by
    have h1 : (0 : ℚ) < (n : ℚ) := by exact_mod_cast hn
    have h2 : (0 : ℚ) < (l.length : ℚ) := by exact_mod_cast List.length_pos.2 hne
    exact mul_pos h1 h2
  rw [key]
  exact div_self (ne_of_gt hpos)

/-- Perfect predictions: micro precision is within eps of 1. -/
lemma micro_precision_self_bounds (l : List ℕ) (n : ℕ) (h : ∀ x ∈ l, x < n)
    (hne : l ≠ []) :
    1 - eps ≤ micro_precision l l n ∧ micro_precision l l n ≤ 1 := by
  unfold micro_precision
  rw [tp_sum_self l n h, fp_sum_self l n, add_zero]
  exact div_add_eps_bounds _ (by exact_mod_cast List.length_pos.2 hne)

/-- Perfect predictions: micro recall is within eps of 1. -/
lemma micro_recall_self_bounds (l : List ℕ) (n : ℕ) (h : ∀ x ∈ l, x < n)
    (hne : l ≠ []) :
    1 - eps ≤ micro_recall l l n ∧ micro_recall l l n ≤ 1 := by
  unfold micro_recall
  rw [tp_sum_self l n h, fn_sum_self l n, add_zero]
  exact div_add_eps_bounds _ (by exact_mod_cast List.length_pos.2 hne)

/-- Perfect predictions covering class i: its precision is within eps of 1. -/
lemma precisions_self_bounds (l : List ℕ) (n i : ℕ) (hi : i < n) (hmem : i ∈ l) :
    1 - eps ≤ precisions l l n i ∧ precisions l l n i ≤ 1 := by
  unfold precisions
  rw [tp_self, fp_self l n i hi, add_zero]
  exact div_add_eps_bounds _ (by exact_mod_cast List.count_pos_iff.2 hmem)

/-- Perfect predictions covering class i: its recall is within eps of 1. -/
lemma recalls_self_bounds (l : List ℕ) (n i : ℕ) (hi : i < n) (hmem : i ∈ l) :
    1 - eps ≤ recalls l l n i ∧ recalls l l n i ≤ 1 := by
  unfold recalls
  rw [tp_self, fn_self l n i hi, add_zero]
  exact div_add_eps_bounds _ (by exact_mod_cast List.count_pos_iff.2 hmem)

/-- The eps-guarded per-class precision denominator is positive in range. -/
lemma precisions_den_pos (labels classes : List ℕ) (num_classes i : ℕ)
    (hi : i < num_classes) : 0 < precisions_den labels classes num_classes i := by
  have h1 := tp_nonneg labels classes i
  have h2 := fp_nonneg labels classes num_classes i hi
  have h3 := eps_pos
  unfold precisions_den
  linarith

/-- The eps-guarded per-class recall denominator is positive in range. -/
lemma recalls_den_pos (labels classes : List ℕ) (num_classes i : ℕ)
    (hi : i < num_classes) : 0 < recalls_den labels classes num_classes i := by
  have h1 := tp_nonneg labels classes i
  have h2 := fn_nonneg labels classes num_classes i hi
  have h3 := eps_pos
  unfold recalls_den
  linarith

/-- Per-class precision lies in the unit interval for in-range classes. -/
lemma precisions_unit (labels classes : List ℕ) (num_classes i : ℕ)
    (hi : i < num_classes) :
    0 ≤ precisions labels classes num_classes i ∧
      precisions labels classes num_classes i ≤ 1 := by
  have hd := precisions_den_pos labels classes num_classes i hi
  have h1 := tp_nonneg labels classes i
  have h2 := fp_nonneg labels classes num_classes i hi
  have h3 := eps_pos
  unfold precisions_den at hd
  exact ratio_mem_unit _ _ h1 (by linarith) hd

/-- Per-class recall lies in the unit interval for in-range classes. -/
lemma recalls_unit (labels classes : List ℕ) (num_classes i : ℕ)
    (hi : i < num_classes) :
    0 ≤ recalls labels classes num_classes i ∧
      recalls labels classes num_classes i ≤ 1 := by
  have hd := recalls_den_pos labels classes num_classes i hi
  have h1 := tp_nonneg labels classes i
  have h2 := fn_nonneg labels classes num_classes i hi
  have h3 := eps_pos
  unfold recalls_den at hd
  exact ratio_mem_unit _ _ h1 (by linarith) hd

/-- Per-class F-measure lies in the unit interval for in-range classes. -/
lemma f_measures_unit (labels classes : List ℕ) (num_classes i : ℕ)
    (hi : i < num_classes) :
    0 ≤ f_measures labels classes num_classes i ∧
      f_measures labels classes num_classes i ≤ 1 := by
  obtain ⟨hp0, hp1⟩ := precisions_unit labels classes num_classes i hi
  obtain ⟨hr0, hr1⟩ := recalls_unit labels classes num_classes i hi
  unfold f_measures
  exact f_formula_unit _ _ hp0 hp1 hr0 hr1

/-- Per-class accuracy lies in the unit interval on a well-formed nonempty batch. -/
lemma accuracies_unit (labels classes : List ℕ) (num_classes i : ℕ)
    (h : Valid labels classes num_classes) (hne : labels ≠ [])
    (hi : i < num_classes) :
    0 ≤ accuracies labels classes num_classes i ∧
      accuracies labels classes num_classes i ≤ 1 := by
  have hd := accuracies_den_eq labels classes num_classes i
  have hlen : (0 : ℚ) < (labels.length : ℚ) := by
    exact_mod_cast List.length_pos.2 hne
  have hln : ln labels classes num_classes = (labels.length : ℚ) :=
    ln_eq_length labels classes num_classes h
  have h1 := tp_nonneg labels classes i
  have h2 := tn_nonneg labels classes num_classes i hi
  have h3 := tp_add_tn_le_ln labels classes num_classes i hi
  unfold accuracies_den at hd
  unfold accuracies
  rw [hd, hln]
  rw [hln] at h3
  exact ratio_mem_unit _ _ (by linarith) h3 hlen

/-- The micro precision denominator is positive for every input. -/
lemma micro_precision_den_pos (labels classes : List ℕ) (num_classes : ℕ) :
    0 < micro_precision_den labels classes num_classes := by
  have h1 := tp_sum_nonneg labels classes num_classes
  have h2 := fp_sum_nonneg labels classes num_classes
  have h3 := eps_pos
  unfold micro_precision_den
  linarith

/-- The micro recall denominator is positive for every input. -/
lemma micro_recall_den_pos (labels classes : List ℕ) (num_classes : ℕ) :
    0 < micro_recall_den labels classes num_classes := by
  have h1 := tp_sum_nonneg labels classes num_classes
  have h2 := fn_sum_nonneg labels classes num_classes
  have h3 := eps_pos
  unfold micro_recall_den
  linarith

/-- Micro precision lies in the unit interval for every input. -/
lemma micro_precision_unit (labels classes : List ℕ) (num_classes : ℕ) :
    0 ≤ micro_precision labels classes num_classes ∧
      micro_precision labels classes num_classes ≤ 1 := by
  have hd := micro_precision_den_pos labels classes num_classes
  have h1 := tp_sum_nonneg labels classes num_classes
  have h2 := fp_sum_nonneg labels classes num_classes
  have h3 := eps_pos
  unfold micro_precision_den at hd
  exact ratio_mem_unit _ _ h1 (by linarith) hd

/-- Micro recall lies in the unit interval for every input. -/
lemma micro_recall_unit (labels classes : List ℕ) (num_classes : ℕ) :
    0 ≤ micro_recall labels classes num_classes ∧
      micro_recall labels classes num_classes ≤ 1 := by
  have hd := micro_recall_den_pos labels classes num_classes
  have h1 := tp_sum_nonneg labels classes num_classes
  have h2 := fn_sum_nonneg labels classes num_classes
  have h3 := eps_pos
  unfold micro_recall_den at hd
  exact ratio_mem_unit _ _ h1 (by linarith) hd

/-- Micro F-measure lies in the unit interval for every input. -/
lemma micro_f_measure_unit (labels classes : List ℕ) (num_classes : ℕ) :
    0 ≤ micro_f_measure labels classes num_classes ∧
      micro_f_measure labels classes num_classes ≤ 1 := by
  obtain ⟨hp0, hp1⟩ := micro_precision_unit labels classes num_classes
  obtain ⟨hr0, hr1⟩ := micro_recall_unit labels classes num_classes
  unfold micro_f_measure
  exact f_formula_unit _ _ hp0 hp1 hr0 hr1

/-- Micro accuracy lies in the unit interval on a well-formed nonempty batch. -/
lemma micro_accuracy_unit (labels classes : List ℕ) (num_classes : ℕ)
    (h : Valid labels classes num_classes) (hne : labels ≠ [])
    (hn : 1 ≤ num_classes) :
    0 ≤ micro_accuracy labels classes num_classes ∧
      micro_accuracy labels classes num_classes ≤ 1 := by
  have hlen : (0 : ℚ) < (labels.length : ℚ) := by
    exact_mod_cast List.length_pos.2 hne
  have hln : ln labels classes num_classes = (labels.length : ℚ) :=
    ln_eq_length labels classes num_classes h
  have hden := micro_accuracy_den_eq labels classes num_classes
  have hnum := tp_sum_add_tn_sum_le labels classes num_classes
  have hn0 : (0 : ℚ) < (num_classes : ℚ) := by exact_mod_cast hn
  have h1 := tp_sum_nonneg labels classes num_classes
  have h2 := tn_sum_nonneg labels classes num_classes
  have hdpos : 0 < micro_accuracy_den labels classes num_classes := by
    rw [hden, hln]
    exact mul_pos hn0 hlen
  unfold micro_accuracy_den at hdpos
  have hnum2 : tp_sum labels classes num_classes + tn_sum labels classes num_classes
      ≤ tp_sum labels classes num_classes + fp_sum labels classes num_classes
        + tn_sum labels classes num_classes + fn_sum labels classes num_classes := by
    have := micro_accuracy_den_eq labels classes num_classes
    unfold micro_accuracy_den at this
    rw [this]
    exact hnum
  unfold micro_accuracy
  exact ratio_mem_unit _ _ (by linarith) hnum2 hdpos

/-- A well-formed nonempty batch forces at least one class. -/
lemma one_le_num_classes (labels classes : List ℕ) (num_classes : ℕ)
    (h : Valid labels classes num_classes) (hne : labels ≠ []) :
    1 ≤ num_classes := by
  obtain ⟨x, hx⟩ := List.exists_mem_of_ne_nil labels hne
  exact Nat.one_le_iff_ne_zero.2 (fun h0 => by
    have := h.2.1 x hx
    omega)

/-- A row indexed by a class that never occurs as a true label is zero. -/
lemma row_sum_zero_of_not_mem (labels classes : List ℕ) (num_classes i : ℕ)
    (hi : i ∉ labels) : row_sum labels classes num_classes i = 0 :=
  Finset.sum_eq_zero fun j _ => confusion_matrix_eq_zero_left labels classes i j hi

/-- A column indexed by a class that never occurs as a prediction is zero. -/
lemma col_sum_zero_of_not_mem (labels classes : List ℕ) (num_classes i : ℕ)
    (hi : i ∉ classes) : col_sum labels classes num_classes i = 0 :=
  Finset.sum_eq_zero fun j _ => confusion_matrix_eq_zero_right labels classes j i hi

/-- Extending the class range by one unused class leaves each row sum alone. -/
lemma row_sum_succ_of_valid (labels classes : List ℕ) (num_classes : ℕ)
    (hc : ∀ x ∈ classes, x < num_classes) (i : ℕ) :
    row_sum labels classes (num_classes + 1) i = row_sum labels classes num_classes i := by
  have hnc : num_classes ∉ classes := fun hmem => absurd (hc _ hmem) (lt_irrefl _)
  unfold row_sum
  rw [Finset.sum_range_succ,
    confusion_matrix_eq_zero_right labels classes i num_classes hnc, add_zero]

/-- Extending the class range by one unused class leaves each column sum alone. -/
lemma col_sum_succ_of_valid (labels classes : List ℕ) (num_classes : ℕ)
    (hl : ∀ x ∈ labels, x < num_classes) (i : ℕ) :
    col_sum labels classes (num_classes + 1) i = col_sum labels classes num_classes i := by
  have hnl : num_classes ∉ labels := fun hmem => absurd (hl _ hmem) (lt_irrefl _)
  unfold col_sum
  rw [Finset.sum_range_succ,
    confusion_matrix_eq_zero_left labels classes num_classes i hnl, add_zero]

/-- The extra class of an extended range has no true examples: its tp is 0. -/
lemma tp_top_zero (labels classes : List ℕ) (num_classes : ℕ)
    (hl : ∀ x ∈ labels, x < num_classes) : tp labels classes num_classes = 0 := by
  have hnl : num_classes ∉ labels := fun hmem => absurd (hl _ hmem) (lt_irrefl _)
  unfold tp
  exact confusion_matrix_eq_zero_left labels classes num_classes num_classes hnl

/-- Summed tp is unchanged by adding one unused class. -/
lemma tp_sum_succ (labels classes : List ℕ) (num_classes : ℕ)
    (hl : ∀ x ∈ labels, x < num_classes) :
    tp_sum labels classes (num_classes + 1) = tp_sum labels classes num_classes := by
  unfold tp_sum
  rw [Finset.sum_range_succ, tp_top_zero labels classes num_classes hl, add_zero]

/-- Summed code-level fp is unchanged by adding one unused class. -/
lemma fp_sum_succ (labels classes : List ℕ) (num_classes : ℕ)
    (hl : ∀ x ∈ labels, x < num_classes) (hc : ∀ x ∈ classes, x < num_classes) :
    fp_sum labels classes (num_classes + 1) = fp_sum labels classes num_classes := by
  have hnl : num_classes ∉ labels := fun hmem => absurd (hl _ hmem) (lt_irrefl _)
  unfold fp_sum fp
  rw [Finset.sum_range_succ]
  rw [Finset.sum_congr rfl (fun i _ => by
    rw [row_sum_succ_of_valid labels classes num_classes hc i])]
  rw [row_sum_succ_of_valid labels classes num_classes hc num_classes,
    row_sum_zero_of_not_mem labels classes num_classes num_classes hnl,
    tp_top_zero labels classes num_classes hl]
  ring

/-- Summed code-level fn is unchanged by adding one unused class. -/
lemma fn_sum_succ (labels classes : List ℕ) (num_classes : ℕ)
    (hl : ∀ x ∈ labels, x < num_classes) (hc : ∀ x ∈ classes, x < num_classes) :
    fn_sum labels classes (num_classes + 1) = fn_sum labels classes num_classes := by
  have hnc : num_classes ∉ classes := fun hmem => absurd (hc _ hmem) (lt_irrefl _)
  unfold fn_sum fn
  rw [Finset.sum_range_succ]
  rw [Finset.sum_congr rfl (fun i _ => by
    rw [col_sum_succ_of_valid labels classes num_classes hl i])]
  rw [col_sum_succ_of_valid labels classes num_classes hl num_classes,
    col_sum_zero_of_not_mem labels classes num_classes num_classes hnc,
    tp_top_zero labels classes num_classes hl]
  ring

/-- C1: evaluation of the code at the spec's worked example
true = [0,0,1,1], predicted = [0,1,1,1], num_classes = 2.  The confusion
matrix is [[1,1],[0,2]], tp = [1,2], tn = [2,1] and micro accuracy = 3/4 as
the claim states, but the source's fp and fn are the claim's values swapped
(fp = [1,0] and fn = [0,1], the row/column complements interchanged), so the
macro precision the code emits is 3/(2(2+eps)) = 0.75, not the claimed
mean(1/1, 2/3) = 0.833; that value is what the code emits as macro recall. -/
theorem C1_code_eval :
    confusion_matrix [0, 0, 1, 1] [0, 1, 1, 1] 0 0 = 1 ∧
    confusion_matrix [0, 0, 1, 1] [0, 1, 1, 1] 0 1 = 1 ∧
    confusion_matrix [0, 0, 1, 1] [0, 1, 1, 1] 1 0 = 0 ∧
    confusion_matrix [0, 0, 1, 1] [0, 1, 1, 1] 1 1 = 2 ∧
    tp [0, 0, 1, 1] [0, 1, 1, 1] 0 = 1 ∧ tp [0, 0, 1, 1] [0, 1, 1, 1] 1 = 2 ∧
    tn [0, 0, 1, 1] [0, 1, 1, 1] 2 0 = 2 ∧ tn [0, 0, 1, 1] [0, 1, 1, 1] 2 1 = 1 ∧
    fp [0, 0, 1, 1] [0, 1, 1, 1] 2 0 = 1 ∧ fp [0, 0, 1, 1] [0, 1, 1, 1] 2 1 = 0 ∧
    fn [0, 0, 1, 1] [0, 1, 1, 1] 2 0 = 0 ∧ fn [0, 0, 1, 1] [0, 1, 1, 1] 2 1 = 1 ∧
    micro_accuracy [0, 0, 1, 1] [0, 1, 1, 1] 2 = 3 / 4 ∧
    macro_precision [0, 0, 1, 1] [0, 1, 1, 1] 2 = 3 / (2 * (2 + eps)) ∧
    macro_precision [0, 0, 1, 1] [0, 1, 1, 1] 2 < 4 / 5 ∧
    macro_recall [0, 0, 1, 1] [0, 1, 1, 1] 2 = (1 / (1 + eps) + 2 / (3 + eps)) / 2 ∧
    4 / 5 < macro_recall [0, 0, 1, 1] [0, 1, 1, 1] 2 := by
  norm_num [micro_accuracy, macro_precision, macro_recall, precisions, recalls,
    tp_sum, fp_sum, tn_sum, fn_sum, tp, fp, fn, tn, row_sum, col_sum, ln,
    confusion_matrix, Finset.sum_range_succ, eps]

/-- C2 counterexample: for true = [0,0,1,1], predicted = [0,1,1,1], adding the
unused class 2 (num_classes 2 to 3) changes the micro accuracy from 3/4
to 5/6, so not all four micro metrics are unchanged. -/
theorem C2_counterexample :
    (2 ∉ ([0, 0, 1, 1] : List ℕ)) ∧ (2 ∉ ([0, 1, 1, 1] : List ℕ)) ∧
    micro_accuracy [0, 0, 1, 1] [0, 1, 1, 1] 2 = 3 / 4 ∧
    micro_accuracy [0, 0, 1, 1] [0, 1, 1, 1] 3 = 5 / 6 ∧
    micro_accuracy [0, 0, 1, 1] [0, 1, 1, 1] 3
      ≠ micro_accuracy [0, 0, 1, 1] [0, 1, 1, 1] 2 := by
  norm_num [micro_accuracy, tp_sum, fp_sum, tn_sum, fn_sum, tp, fp, fn, tn,
    row_sum, col_sum, ln, confusion_matrix, Finset.sum_range_succ, eps]

/-- C2 (amended): for every well-formed input, adding one class index that
occurs in neither label sequence leaves the micro precision, recall and
F-measure unchanged; micro accuracy is not in general preserved (see the
counterexample). -/
theorem C2_micro_ratios_unchanged (labels classes : List ℕ) (num_classes : ℕ)
    (h : Valid labels classes num_classes) :
    micro_precision labels classes (num_classes + 1)
        = micro_precision labels classes num_classes ∧
    micro_recall labels classes (num_classes + 1)
        = micro_recall labels classes num_classes ∧
    micro_f_measure labels classes (num_classes + 1)
        = micro_f_measure labels classes num_classes := by
  obtain ⟨hlen, hl, hc⟩ := h
  have h1 := tp_sum_succ labels classes num_classes hl
  have h2 := fp_sum_succ labels classes num_classes hl hc
  have h3 := fn_sum_succ labels classes num_classes hl hc
  have hp : micro_precision labels classes (num_classes + 1)
      = micro_precision labels classes num_classes := by
    unfold micro_precision
    rw [h1, h2]
  have hr : micro_recall labels classes (num_classes + 1)
      = micro_recall labels classes num_classes := by
    unfold micro_recall
    rw [h1, h3]
  refine ⟨hp, hr, ?_⟩
  unfold micro_f_measure
  rw [hp, hr]

/-- Witness for C2: the amended statement at the spec's example input. -/
theorem C2_witness :
    micro_precision [0, 0, 1, 1] [0, 1, 1, 1] 3
        = micro_precision [0, 0, 1, 1] [0, 1, 1, 1] 2 ∧
    micro_recall [0, 0, 1, 1] [0, 1, 1, 1] 3
        = micro_recall [0, 0, 1, 1] [0, 1, 1, 1] 2 ∧
    micro_f_measure [0, 0, 1, 1] [0, 1, 1, 1] 3
        = micro_f_measure [0, 0, 1, 1] [0, 1, 1, 1] 2 :=
  C2_micro_ratios_unchanged [0, 0, 1, 1] [0, 1, 1, 1] 2 (by decide)

/-- C3 counterexample: at the spec's example the code's micro accuracy is 3/4
while (sum tp + sum tn) / (number of examples) is 6/4, so the claimed formula
with total = example count does not match the code. -/
theorem C3_counterexample :
    micro_accuracy [0, 0, 1, 1] [0, 1, 1, 1] 2
      ≠ (tp_sum [0, 0, 1, 1] [0, 1, 1, 1] 2 + tn_sum [0, 0, 1, 1] [0, 1, 1, 1] 2)
        / ((([0, 0, 1, 1] : List ℕ).length : ℚ)) := by
  norm_num [micro_accuracy, tp_sum, fp_sum, tn_sum, fn_sum, tp, fp, fn, tn,
    row_sum, col_sum, ln, confusion_matrix, Finset.sum_range_succ, eps]

/-- C3 (amended): for every well-formed input the micro accuracy equals
(sum tp + sum tn) divided by (number of examples times num_classes) — the
code's denominator sums all four counts over all classes, which is
num_classes times the batch size, not the batch size. -/
theorem C3_micro_accuracy_total (labels classes : List ℕ) (num_classes : ℕ)
    (h : Valid labels classes num_classes) :
    micro_accuracy labels classes num_classes
      = (tp_sum labels classes num_classes + tn_sum labels classes num_classes)
        / ((labels.length : ℚ) * (num_classes : ℚ)) := by
  have hden := micro_accuracy_den_eq labels classes num_classes
  unfold micro_accuracy_den at hden
  unfold micro_accuracy
  rw [hden, ln_eq_length labels classes num_classes h, mul_comm]

/-- Witness for C3: the amended statement at the spec's example input. -/
theorem C3_witness :
    micro_accuracy [0, 0, 1, 1] [0, 1, 1, 1] 2
      = (tp_sum [0, 0, 1, 1] [0, 1, 1, 1] 2 + tn_sum [0, 0, 1, 1] [0, 1, 1, 1] 2)
        / ((([0, 0, 1, 1] : List ℕ).length : ℚ) * ((2 : ℕ) : ℚ)) :=
  C3_micro_accuracy_total [0, 0, 1, 1] [0, 1, 1, 1] 2 (by decide)

/-- C4 counterexample: no input, however imbalanced, makes the macro accuracy
differ from the micro accuracy — every per-class accuracy division has the
same denominator (the matrix total), so the unweighted mean of the per-class
ratios is exactly the micro ratio. -/
theorem C4_counterexample :
    ¬ ∃ (labels classes : List ℕ) (num_classes : ℕ),
        Valid labels classes num_classes ∧
        macro_accuracy labels classes num_classes
          ≠ micro_accuracy labels classes num_classes := by
  rintro ⟨l, c, n, -, hne⟩
  exact hne (macro_accuracy_eq_micro l c n)

/-- C4 (amended): for every input the macro-averaged accuracy equals the
micro-averaged accuracy; class imbalance cannot separate them (unlike the
other three metrics, accuracy has the same denominator for every class). -/
theorem C4_macro_accuracy_agrees (labels classes : List ℕ) (num_classes : ℕ) :
    macro_accuracy labels classes num_classes
      = micro_accuracy labels classes num_classes :=
  macro_accuracy_eq_micro labels classes num_classes

/-- C5 counterexample: on the empty batch with a single class — a degenerate
input the claim covers — the accuracy divisions of micro_metrics and
macro_metrics have denominator exactly 0: they carry no epsilon guard, so the
code divides by zero there (float NaN), contrary to the claim that every
division's denominator is guarded by the additive epsilon. -/
theorem C5_counterexample :
    Valid ([] : List ℕ) ([] : List ℕ) 1 ∧
    micro_accuracy_den ([] : List ℕ) ([] : List ℕ) 1 = 0 ∧
    accuracies_den ([] : List ℕ) ([] : List ℕ) 1 0 = 0 := by
  refine ⟨by decide, ?_, ?_⟩ <;>
    norm_num [micro_accuracy_den, accuracies_den, tp_sum, fp_sum, tn_sum, fn_sum,
      tp, fp, fn, tn, row_sum, col_sum, ln, confusion_matrix, Finset.sum_range_succ]

/-- C5 (amended): the precision, recall and F-measure denominators are
eps-guarded and strictly positive for every input, including the empty batch
and the single-class case; the two accuracy denominators are not guarded and
are positive only when the batch is nonempty (they are zero on the empty
batch). -/
theorem C5_eps_guard (labels classes : List ℕ) (num_classes : ℕ) :
    (0 < micro_precision_den labels classes num_classes ∧
     0 < micro_recall_den labels classes num_classes ∧
     0 < micro_f_measure_den labels classes num_classes ∧
     ∀ i < num_classes, 0 < precisions_den labels classes num_classes i ∧
       0 < recalls_den labels classes num_classes i ∧
       0 < f_measures_den labels classes num_classes i) ∧
    (Valid labels classes num_classes → labels ≠ [] →
      0 < micro_accuracy_den labels classes num_classes ∧
      ∀ i < num_classes, 0 < accuracies_den labels classes num_classes i) := by
  constructor
  · refine ⟨micro_precision_den_pos labels classes num_classes,
      micro_recall_den_pos labels classes num_classes, ?_, ?_⟩
    · have hp := (micro_precision_unit labels classes num_classes).1
      have hr := (micro_recall_unit labels classes num_classes).1
      have he := eps_pos
      unfold micro_f_measure_den
      linarith
    · intro i hi
      refine ⟨precisions_den_pos labels classes num_classes i hi,
        recalls_den_pos labels classes num_classes i hi, ?_⟩
      have hp := (precisions_unit labels classes num_classes i hi).1
      have hr := (recalls_unit labels classes num_classes i hi).1
      have he := eps_pos
      unfold f_measures_den
      linarith
  · intro h hne
    have hlen : (0 : ℚ) < (labels.length : ℚ) := by
      exact_mod_cast List.length_pos.2 hne
    have hln := ln_eq_length labels classes num_classes h
    have hn : 1 ≤ num_classes := one_le_num_classes labels classes num_classes h hne
    have hn0 : (0 : ℚ) < (num_classes : ℚ) := by exact_mod_cast hn
    constructor
    · rw [micro_accuracy_den_eq, hln]
      exact mul_pos hn0 hlen
    · intro i _
      rw [accuracies_den_eq, hln]
      exact hlen

/-- Witness for C5: the guards evaluated on a one-example single-class batch. -/
theorem C5_witness :
    0 < micro_precision_den [0] [0] 1 ∧ 0 < micro_accuracy_den [0] [0] 1 :=
  ⟨(C5_eps_guard [0] [0] 1).1.1,
    ((C5_eps_guard [0] [0] 1).2 (by decide) (by decide)).1⟩

/-- C6: the micro metrics are computed from the per-class counts summed over
all classes first, with exactly the claimed formulas: accuracy has the
unguarded four-sum denominator, precision, recall and F-measure carry the
additive epsilon 1e-7. -/
theorem C6_micro_formulas (labels classes : List ℕ) (num_classes : ℕ) :
    tp_sum labels classes num_classes
        = ∑ i ∈ Finset.range num_classes, confusion_matrix labels classes i i ∧
    micro_accuracy labels classes num_classes
        = (tp_sum labels classes num_classes + tn_sum labels classes num_classes)
          / (tp_sum labels classes num_classes + fp_sum labels classes num_classes
            + tn_sum labels classes num_classes + fn_sum labels classes num_classes) ∧
    micro_precision labels classes num_classes
        = tp_sum labels classes num_classes
          / (tp_sum labels classes num_classes + fp_sum labels classes num_classes + eps) ∧
    micro_recall labels classes num_classes
        = tp_sum labels classes num_classes
          / (tp_sum labels classes num_classes + fn_sum labels classes num_classes + eps) ∧
    micro_f_measure labels classes num_classes
        = 2 * micro_precision labels classes num_classes
            * micro_recall labels classes num_classes
          / (micro_precision labels classes num_classes
            + micro_recall labels classes num_classes + eps) ∧
    eps = 1 / 10000000 :=
  ⟨rfl, rfl, rfl, rfl, rfl, rfl⟩

/-- C7: the per-class counts are derived from the confusion matrix exactly as
claimed — tp is the diagonal entry, fp the row-sum complement, fn the
column-sum complement, and tn the total (= number of examples, for a
well-formed input) minus the other three. -/
theorem C7_per_class_counts (labels classes : List ℕ) (num_classes i : ℕ)
    (h : Valid labels classes num_classes) :
    tp labels classes i = confusion_matrix labels classes i i ∧
    fp labels classes num_classes i
        = (∑ j ∈ Finset.range num_classes, confusion_matrix labels classes i j)
          - confusion_matrix labels classes i i ∧
    fn labels classes num_classes i
        = (∑ j ∈ Finset.range num_classes, confusion_matrix labels classes j i)
          - confusion_matrix labels classes i i ∧
    tn labels classes num_classes i
        = (labels.length : ℚ) - tp labels classes i
          - fp labels classes num_classes i - fn labels classes num_classes i := by
  refine ⟨rfl, rfl, rfl, ?_⟩
  unfold tn
  rw [ln_eq_length labels classes num_classes h]

/-- Witness for C7: the count derivation at the spec's example, class 0. -/
theorem C7_witness :
    tp [0, 0, 1, 1] [0, 1, 1, 1] 0 = confusion_matrix [0, 0, 1, 1] [0, 1, 1, 1] 0 0 ∧
    fp [0, 0, 1, 1] [0, 1, 1, 1] 2 0
        = (∑ j ∈ Finset.range 2, confusion_matrix [0, 0, 1, 1] [0, 1, 1, 1] 0 j)
          - confusion_matrix [0, 0, 1, 1] [0, 1, 1, 1] 0 0 ∧
    fn [0, 0, 1, 1] [0, 1, 1, 1] 2 0
        = (∑ j ∈ Finset.range 2, confusion_matrix [0, 0, 1, 1] [0, 1, 1, 1] j 0)
          - confusion_matrix [0, 0, 1, 1] [0, 1, 1, 1] 0 0 ∧
    tn [0, 0, 1, 1] [0, 1, 1, 1] 2 0
        = ((([0, 0, 1, 1] : List ℕ).length : ℚ)) - tp [0, 0, 1, 1] [0, 1, 1, 1] 0
          - fp [0, 0, 1, 1] [0, 1, 1, 1] 2 0 - fn [0, 0, 1, 1] [0, 1, 1, 1] 2 0 :=
  C7_per_class_counts [0, 0, 1, 1] [0, 1, 1, 1] 2 0 (by decide)

/-- C8 counterexample: on the nonempty perfectly-predicted batch
true = predicted = [0] with num_classes = 2, the class 1 has no examples and
contributes precision 0/(0+eps) = 0, so the emitted macro precision is about
0.5 — far below 1 — contradicting the claim for inputs whose class range is
not covered by the labels. -/
theorem C8_counterexample :
    ([0] : List ℕ) ≠ [] ∧ (∀ x ∈ ([0] : List ℕ), x < 2) ∧
    macro_precision [0] [0] 2 < 2 / 3 := by
  refine ⟨by decide, by decide, ?_⟩
  norm_num [macro_precision, precisions, tp, fp, row_sum, confusion_matrix,
    Finset.sum_range_succ, eps]

/-- C8 (amended): for every nonempty batch of in-range labels predicted
perfectly and covering every class index, micro and macro accuracy are
exactly 1 and micro and macro precision, recall and F-measure are within
3 eps of 1 (precision and recall within eps). -/
theorem C8_perfect_match (l : List ℕ) (num_classes : ℕ)
    (hval : ∀ x ∈ l, x < num_classes) (hne : l ≠ [])
    (hcover : ∀ i < num_classes, i ∈ l) :
    micro_accuracy l l num_classes = 1 ∧
    macro_accuracy l l num_classes = 1 ∧
    (1 - eps ≤ micro_precision l l num_classes ∧
      micro_precision l l num_classes ≤ 1) ∧
    (1 - eps ≤ micro_recall l l num_classes ∧
      micro_recall l l num_classes ≤ 1) ∧
    (1 - 3 * eps ≤ micro_f_measure l l num_classes ∧
      micro_f_measure l l num_classes ≤ 1) ∧
    (1 - eps ≤ macro_precision l l num_classes ∧
      macro_precision l l num_classes ≤ 1) ∧
    (1 - eps ≤ macro_recall l l num_classes ∧
      macro_recall l l num_classes ≤ 1) ∧
    (1 - 3 * eps ≤ macro_f_measure l l num_classes ∧
      macro_f_measure l l num_classes ≤ 1) := by
  have hn : 1 ≤ num_classes := one_le_num_classes l l num_classes ⟨rfl, hval, hval⟩ hne
  have hp := micro_precision_self_bounds l num_classes hval hne
  have hr := micro_recall_self_bounds l num_classes hval hne
  refine ⟨micro_accuracy_self l num_classes hval hn hne,
    macro_accuracy_self l num_classes hval hn hne, hp, hr, ?_, ?_, ?_, ?_⟩
  · constructor
    · unfold micro_f_measure
      exact f_formula_near_one _ _ hp.1 hp.2 hr.1 hr.2
    · exact (micro_f_measure_unit l l num_classes).2
  · unfold macro_precision
    exact mean_bounds _ num_classes _ _ hn (fun i hi =>
      precisions_self_bounds l num_classes i (Finset.mem_range.1 hi)
        (hcover i (Finset.mem_range.1 hi)))
  · unfold macro_recall
    exact mean_bounds _ num_classes _ _ hn (fun i hi =>
      recalls_self_bounds l num_classes i (Finset.mem_range.1 hi)
        (hcover i (Finset.mem_range.1 hi)))
  · unfold macro_f_measure
    refine mean_bounds _ num_classes _ _ hn (fun i hi => ?_)
    have hi' := Finset.mem_range.1 hi
    have hpi := precisions_self_bounds l num_classes i hi' (hcover i hi')
    have hri := recalls_self_bounds l num_classes i hi' (hcover i hi')
    constructor
    · unfold f_measures
      exact f_formula_near_one _ _ hpi.1 hpi.2 hri.1 hri.2
    · exact (f_measures_unit l l num_classes i hi').2

/-- Witness for C8: the amended statement on the perfectly-predicted batch
[0, 1] with both classes present. -/
theorem C8_witness :
    micro_accuracy [0, 1] [0, 1] 2 = 1 ∧
    macro_accuracy [0, 1] [0, 1] 2 = 1 ∧
    (1 - eps ≤ micro_precision [0, 1] [0, 1] 2 ∧
      micro_precision [0, 1] [0, 1] 2 ≤ 1) ∧
    (1 - eps ≤ micro_recall [0, 1] [0, 1] 2 ∧
      micro_recall [0, 1] [0, 1] 2 ≤ 1) ∧
    (1 - 3 * eps ≤ micro_f_measure [0, 1] [0, 1] 2 ∧
      micro_f_measure [0, 1] [0, 1] 2 ≤ 1) ∧
    (1 - eps ≤ macro_precision [0, 1] [0, 1] 2 ∧
      macro_precision [0, 1] [0, 1] 2 ≤ 1) ∧
    (1 - eps ≤ macro_recall [0, 1] [0, 1] 2 ∧
      macro_recall [0, 1] [0, 1] 2 ≤ 1) ∧
    (1 - 3 * eps ≤ macro_f_measure [0, 1] [0, 1] 2 ∧
      macro_f_measure [0, 1] [0, 1] 2 ≤ 1) :=
  C8_perfect_match [0, 1] 2 (by decide) (by decide) (by decide)

/-- C9 counterexample: the claim quantifies over every valid pair of
equal-length label sequences, which includes the empty batch; there both
accuracy divisions have denominator 0, so the emitted accuracy is not a
number in [0, 1] (the float code produces NaN). -/
theorem C9_counterexample :
    Valid ([] : List ℕ) ([] : List ℕ) 2 ∧
    accuracies_den ([] : List ℕ) ([] : List ℕ) 2 0 = 0 ∧
    micro_accuracy_den ([] : List ℕ) ([] : List ℕ) 2 = 0 := by
  refine ⟨by decide, ?_, ?_⟩ <;>
    norm_num [micro_accuracy_den, accuracies_den, tp_sum, fp_sum, tn_sum, fn_sum,
      tp, fp, fn, tn, row_sum, col_sum, ln, confusion_matrix, Finset.sum_range_succ]

/-- C9 (amended): for every well-formed nonempty batch, every emitted metric —
micro, macro and per-class accuracy, precision, recall and F-measure — lies
in [0, 1]; the empty batch must be excluded because its accuracy divisions
have zero denominator. -/
theorem C9_unit_interval (labels classes : List ℕ) (num_classes : ℕ)
    (h : Valid labels classes num_classes) (hne : labels ≠ []) :
    ((0 ≤ micro_accuracy labels classes num_classes ∧
        micro_accuracy labels classes num_classes ≤ 1) ∧
     (0 ≤ micro_precision labels classes num_classes ∧
        micro_precision labels classes num_classes ≤ 1) ∧
     (0 ≤ micro_recall labels classes num_classes ∧
        micro_recall labels classes num_classes ≤ 1) ∧
     (0 ≤ micro_f_measure labels classes num_classes ∧
        micro_f_measure labels classes num_classes ≤ 1)) ∧
    ((0 ≤ macro_accuracy labels classes num_classes ∧
        macro_accuracy labels classes num_classes ≤ 1) ∧
     (0 ≤ macro_precision labels classes num_classes ∧
        macro_precision labels classes num_classes ≤ 1) ∧
     (0 ≤ macro_recall labels classes num_classes ∧
        macro_recall labels classes num_classes ≤ 1) ∧
     (0 ≤ macro_f_measure labels classes num_classes ∧
        macro_f_measure labels classes num_classes ≤ 1)) ∧
    (∀ i < num_classes,
      (0 ≤ accuracies labels classes num_classes i ∧
        accuracies labels classes num_classes i ≤ 1) ∧
      (0 ≤ precisions labels classes num_classes i ∧
        precisions labels classes num_classes i ≤ 1) ∧
      (0 ≤ recalls labels classes num_classes i ∧
        recalls labels classes num_classes i ≤ 1) ∧
      (0 ≤ f_measures labels classes num_classes i ∧
        f_measures labels classes num_classes i ≤ 1)) := by
  have hn : 1 ≤ num_classes := one_le_num_classes labels classes num_classes h hne
  refine ⟨⟨micro_accuracy_unit labels classes num_classes h hne hn,
    micro_precision_unit labels classes num_classes,
    micro_recall_unit labels classes num_classes,
    micro_f_measure_unit labels classes num_classes⟩, ⟨?_, ?_, ?_, ?_⟩, ?_⟩
  · unfold macro_accuracy
    exact mean_bounds _ num_classes _ _ hn (fun i hi =>
      accuracies_unit labels classes num_classes i h hne (Finset.mem_range.1 hi))
  · unfold macro_precision
    exact mean_bounds _ num_classes _ _ hn (fun i hi =>
      precisions_unit labels classes num_classes i (Finset.mem_range.1 hi))
  · unfold macro_recall
    exact mean_bounds _ num_classes _ _ hn (fun i hi =>
      recalls_unit labels classes num_classes i (Finset.mem_range.1 hi))
  · unfold macro_f_measure
    exact mean_bounds _ num_classes _ _ hn (fun i hi =>
      f_measures_unit labels classes num_classes i (Finset.mem_range.1 hi))
  · intro i hi
    exact ⟨accuracies_unit labels classes num_classes i h hne hi,
      precisions_unit labels classes num_classes i hi,
      recalls_unit labels classes num_classes i hi,
      f_measures_unit labels classes num_classes i hi⟩

/-- Witness for C9: unit-interval membership evaluated on a concrete
imperfect batch. -/
theorem C9_witness :
    (0 ≤ micro_accuracy [0, 1] [1, 1] 2 ∧ micro_accuracy [0, 1] [1, 1] 2 ≤ 1) ∧
    (0 ≤ accuracies [0, 1] [1, 1] 2 0 ∧ accuracies [0, 1] [1, 1] 2 0 ≤ 1) :=
  ⟨(C9_unit_interval [0, 1] [1, 1] 2 (by decide) (by decide)).1.1,
    ((C9_unit_interval [0, 1] [1, 1] 2 (by decide) (by decide)).2.2 0 (by norm_num)).1⟩

/-- C10: for every well-formed input the micro precision equals the micro
recall: the summed code-level fp and the summed code-level fn both equal the
number of examples minus the summed tp, because the row sums and the column
sums of the confusion matrix both total the batch size. -/
theorem C10_micro_precision_eq_recall (labels classes : List ℕ) (num_classes : ℕ)
    (h : Valid labels classes num_classes) :
    micro_precision labels classes num_classes
        = micro_recall labels classes num_classes ∧
    fp_sum labels classes num_classes
        = (labels.length : ℚ) - tp_sum labels classes num_classes ∧
    fn_sum labels classes num_classes
        = (labels.length : ℚ) - tp_sum labels classes num_classes := by
  have h1 := fp_sum_eq labels classes num_classes
  have h2 := fn_sum_eq labels classes num_classes
  have h3 := ln_eq_length labels classes num_classes h
  refine ⟨?_, by rw [h1, h3], by rw [h2, h3]⟩
  unfold micro_precision micro_recall
  rw [h1, h2]

/-- Witness for C10: micro precision equals micro recall at the spec's
example input. -/
theorem C10_witness :
    micro_precision [0, 0, 1, 1] [0, 1, 1, 1] 2
        = micro_recall [0, 0, 1, 1] [0, 1, 1, 1] 2 ∧
    fp_sum [0, 0, 1, 1] [0, 1, 1, 1] 2
        = ((([0, 0, 1, 1] : List ℕ).length : ℚ)) - tp_sum [0, 0, 1, 1] [0, 1, 1, 1] 2 ∧
    fn_sum [0, 0, 1, 1] [0, 1, 1, 1] 2
        = ((([0, 0, 1, 1] : List ℕ).length : ℚ)) - tp_sum [0, 0, 1, 1] [0, 1, 1, 1] 2 :=
  C10_micro_precision_eq_recall [0, 0, 1, 1] [0, 1, 1, 1] 2 (by decide)

end Metrics
